import Mathlib

/-!
Verification of the versioned document store of the `text-hosting` worker.

The definitions below are a shallow embedding of the TypeScript sources:
  * `storage.ts` (the `DocumentStore` class): records, versions, indexes,
    create/update/delete/get/list and the internal helpers,
  * `types.ts`: the stored and viewer-facing record shapes,
  * `router.ts`: the HTTP handlers for raw-content access and deletion,
  * `auth.ts`: the share-token codec.

Modelling conventions:
  * The Cloudflare KV namespace is a structured state `KV` instead of a flat
    string-keyed map.  The key schema of the source (`doc:<id>`,
    `version:<id>:<versionId>`, `documents:public:index`,
    `documents:owner:<token>`) is injective because document ids and version
    ids are nanoid strings without colons, so the four key families never
    collide and splitting the map into four components is faithful.
  * Record (de)serialisation through JSON is elided: `KV.docs` stores the
    metadata value directly, exactly as `putRecord`/`getRecord` round it
    through `JSON.stringify`/`JSON.parse`.
  * `Promise.all` in the source issues writes to pairwise distinct keys, so
    the final state is the same as performing them sequentially; the model
    applies them in order.
  * Random generation (`nanoid`) and the clock (`new Date`, `Date.now`) are
    external inputs; the operations take them as explicit arguments.
  * `crypto.subtle` SHA-256 / HMAC-SHA256 are external primitives; the store
    carries the content hash function as a parameter and the share-token
    codec takes the `sign` function as a parameter.
  * TypeScript `string | undefined` becomes `Option String`; JavaScript
    truthiness of such a value (`undefined` and `""` are falsy) is `jsTruthy`.
  * Thrown errors become `Except` results.  Both `createDocument` and
    `updateDocument` run `assertSize` before any KV write, and the ownership
    checks run before any write, so an error result carries no new state.
-/

/-- `VersionMetadata` of `types.ts`: id, creation time, byte size, hex hash. -/
structure VersionMetadata where
  versionId : String
  createdAt : String
  size : Nat
  hash : String
deriving DecidableEq

/-- `StoredDocumentMetadata` of `types.ts`.  `ownerToken` and `rawAccessKey`
are the optional credentials; `versions` is newest first. -/
structure StoredDocumentMetadata where
  id : String
  title : String
  createdAt : String
  updatedAt : String
  size : Nat
  versions : List VersionMetadata
  ownerToken : Option String
  rawAccessKey : Option String
deriving DecidableEq

/-- `DocumentView` of `types.ts`: the stored metadata minus `ownerToken`,
plus the derived `isOwner` and `isPrivate` flags.  `rawAccessKey` stays a
field of the view (the `toView` spread keeps it when the document is owned). -/
structure DocumentView where
  id : String
  title : String
  createdAt : String
  updatedAt : String
  size : Nat
  versions : List VersionMetadata
  isOwner : Bool
  isPrivate : Bool
  rawAccessKey : Option String
deriving DecidableEq

/-- JavaScript truthiness of a `string | undefined` value: `undefined` and
the empty string are falsy. -/
def jsTruthy : Option String → Bool
  | none => false
  | some s => !(s == "")

/-- JavaScript whitespace as recognised by `String.prototype.trim`,
restricted to the ASCII range (the Unicode space characters JavaScript
additionally strips are irrelevant for the tokens considered here). -/
def isJsSpace (c : Char) : Bool :=
  c = ' ' ∨ c = '\t' ∨ c = '\n' ∨ c = '\r' ∨ c = '\x0b' ∨ c = '\x0c'

/-- JavaScript `s.trim()`: strip leading and trailing whitespace. -/
def jsTrim (s : String) : String :=
  String.mk (((s.data.dropWhile isJsSpace).reverse.dropWhile isJsSpace).reverse)

/-- The token normalisation pattern `tok?.trim() ? tok.trim() : undefined`
used throughout `storage.ts`: whitespace-only or absent collapses to
`undefined`, anything else is trimmed. -/
def normalizeToken : Option String → Option String
  | none => none
  | some s => if jsTrim s = "" then none else some (jsTrim s)

/-- The structured backing store (`KVNamespace`): document records, version
content blobs keyed by document id and version id, the public index, and one
index per owner token. -/
structure KV where
  docs : String → Option StoredDocumentMetadata
  contents : String → String → Option String
  publicIndex : List String
  ownerIndex : String → List String

/-- `DocumentStore` configuration: the size limit and the content hash
(`crypto.subtle.digest("SHA-256", ...)` rendered to hex), which is an
external primitive taken as a parameter. -/
structure Store where
  maxSize : Nat
  hash : String → String

/-- `pushToIndex`: drop existing occurrences of the id, then `unshift` it. -/
def pushToIndex (index : List String) (id : String) : List String :=
  id :: index.filter (fun existing => existing ≠ id)

/-- `removeFromIndex`: drop every occurrence of the id. -/
def removeFromIndex (index : List String) (id : String) : List String :=
  index.filter (fun existing => existing ≠ id)

/-- `kv.put` of a document record. -/
def KV.putRecord (kv : KV) (id : String) (m : StoredDocumentMetadata) : KV :=
  { kv with docs := fun d => if d = id then some m else kv.docs d }

/-- `kv.put` of a version content blob. -/
def KV.putVersion (kv : KV) (id versionId content : String) : KV :=
  { kv with contents := fun d v =>
      if d = id ∧ v = versionId then some content else kv.contents d v }

/-- `kv.delete` of a document record. -/
def KV.deleteRecord (kv : KV) (id : String) : KV :=
  { kv with docs := fun d => if d = id then none else kv.docs d }

/-- `kv.delete` of a version content blob. -/
def KV.deleteVersion (kv : KV) (id versionId : String) : KV :=
  { kv with contents := fun d v =>
      if d = id ∧ v = versionId then none else kv.contents d v }

/-- `updatePublicIndex`: push when the document is public, remove otherwise. -/
def KV.updatePublicIndex (kv : KV) (documentId : String) (isPublic : Bool) : KV :=
  if isPublic then
    { kv with publicIndex := pushToIndex kv.publicIndex documentId }
  else
    { kv with publicIndex := removeFromIndex kv.publicIndex documentId }

/-- `touchOwnerIndex`: push the id onto the owner-token index. -/
def KV.touchOwnerIndex (kv : KV) (ownerToken documentId : String) : KV :=
  { kv with ownerIndex := fun t =>
      if t = ownerToken then pushToIndex (kv.ownerIndex t) documentId
      else kv.ownerIndex t }

/-- `removeFromIndex` applied to an owner-token index. -/
def KV.removeFromOwnerIndex (kv : KV) (ownerToken documentId : String) : KV :=
  { kv with ownerIndex := fun t =>
      if t = ownerToken then removeFromIndex (kv.ownerIndex t) documentId
      else kv.ownerIndex t }

/-- The error kinds thrown by `DocumentStore` (`throw new Error(...)`). -/
inductive StoreErr where
  | notFound
  | forbidden
  | fileTooLarge
deriving DecidableEq

/-- `toView`: strips `ownerToken`, derives `isOwner` (strict `===` of the
viewer token against the stored token, guarded by `Boolean(ownerToken)`) and
`isPrivate`, and keeps `rawAccessKey` only for owned documents. -/
def toView (metadata : StoredDocumentMetadata) (viewerToken : Option String) :
    DocumentView :=
  let hasOwner := jsTruthy metadata.ownerToken
  let isOwner := hasOwner && (viewerToken == metadata.ownerToken)
  { id := metadata.id
    title := metadata.title
    createdAt := metadata.createdAt
    updatedAt := metadata.updatedAt
    size := metadata.size
    versions := metadata.versions
    isOwner := isOwner
    isPrivate := hasOwner
    rawAccessKey := if hasOwner then metadata.rawAccessKey else none }

/-- The random inputs consumed by one `updateDocument` call: the fresh
version id (`nanoid(10)`), the clock reading (`new Date().toISOString()`)
and the fresh raw-access key (`nanoid(16)`, used only for owned documents). -/
structure Entropy where
  versionId : String
  now : String
  rawKey : String

/-- `DocumentStore.createDocument`.  The fresh document id, version id,
timestamp and raw-access key are explicit arguments.  Returns the new state
together with the sanitized view and the new version metadata. -/
def createDocument (st : Store) (kv : KV) (title content : String)
    (ownerTokenIn : Option String) (id : String) (e : Entropy) :
    Except StoreErr (KV × DocumentView × VersionMetadata) :=
  if content.utf8ByteSize > st.maxSize then .error .fileTooLarge else
  let ownerToken := normalizeToken ownerTokenIn
  let size := content.utf8ByteSize
  let vm : VersionMetadata :=
    { versionId := e.versionId, createdAt := e.now, size := size,
      hash := st.hash content }
  let stored : StoredDocumentMetadata :=
    { id := id, title := title, createdAt := e.now, updatedAt := e.now,
      size := size, versions := [vm], ownerToken := ownerToken,
      rawAccessKey := if ownerToken.isSome then some e.rawKey else none }
  let kv1 := (kv.putRecord id stored).putVersion id e.versionId content
  let kv2 := kv1.updatePublicIndex stored.id (!ownerToken.isSome)
  let kv3 := match ownerToken with
    | some o => kv2.touchOwnerIndex o stored.id
    | none => kv2
  .ok (kv3, toView stored ownerToken, vm)

/-- The write phase of `updateDocument`, after the checks passed. -/
def updateDocumentGo (st : Store) (kv : KV) (id content : String)
    (m : StoredDocumentMetadata) (existingOwner ownerToken : Option String)
    (e : Entropy) : Except StoreErr (KV × DocumentView × VersionMetadata) :=
  let size := content.utf8ByteSize
  let vm : VersionMetadata :=
    { versionId := e.versionId, createdAt := e.now, size := size,
      hash := st.hash content }
  let m' : StoredDocumentMetadata :=
    { m with updatedAt := e.now, size := size, versions := vm :: m.versions,
             rawAccessKey :=
               if existingOwner.isSome then some e.rawKey else m.rawAccessKey }
  let kv1 := (kv.putRecord id m').putVersion id e.versionId content
  let kv2 := kv1.updatePublicIndex m'.id (!existingOwner.isSome)
  let kv3 := match existingOwner with
    | some o => kv2.touchOwnerIndex o m'.id
    | none => kv2
  .ok (kv3, toView m' ownerToken, vm)

/-- `DocumentStore.updateDocument`.  Size check first, then record lookup,
then the ownership check, then the new version is prepended, `updatedAt` and
`size` refreshed, `rawAccessKey` rotated for owned documents, and the
relevant indexes touched. -/
def updateDocument (st : Store) (kv : KV) (id content : String)
    (ownerTokenIn : Option String) (e : Entropy) :
    Except StoreErr (KV × DocumentView × VersionMetadata) :=
  if content.utf8ByteSize > st.maxSize then .error .fileTooLarge else
  match kv.docs id with
  | none => .error .notFound
  | some m =>
    let existingOwner := normalizeToken m.ownerToken
    let ownerToken := normalizeToken ownerTokenIn
    if existingOwner.isSome then
      if existingOwner ≠ ownerToken then .error .forbidden else
        updateDocumentGo st kv id content m existingOwner ownerToken e
    else if ownerToken.isSome then .error .forbidden else
      updateDocumentGo st kv id content m existingOwner ownerToken e

/-- The write phase of `deleteDocument`, after the checks passed. -/
def deleteDocumentGo (kv : KV) (id : String) (m : StoredDocumentMetadata)
    (existingOwner : Option String) : KV :=
  let kv1 := (kv.deleteRecord id).updatePublicIndex id false
  let kv2 := match existingOwner with
    | some o => kv1.removeFromOwnerIndex o id
    | none => kv1
  m.versions.foldl (fun acc v => acc.deleteVersion id v.versionId) kv2

/-- `DocumentStore.deleteDocument`: lookup, ownership check, then removal of
the record, the index references and every version content blob. -/
def deleteDocument (kv : KV) (id : String) (ownerTokenIn : Option String) :
    Except StoreErr KV :=
  match kv.docs id with
  | none => .error .notFound
  | some m =>
    let existingOwner := normalizeToken m.ownerToken
    let token := normalizeToken ownerTokenIn
    if existingOwner.isSome then
      if existingOwner ≠ token then .error .forbidden else
        .ok (deleteDocumentGo kv id m existingOwner)
    else if token.isSome then .error .forbidden else
      .ok (deleteDocumentGo kv id m existingOwner)

/-- `DocumentStore.getDocument`: pure read returning a sanitized view. -/
def getDocument (kv : KV) (id : String) (viewerToken : Option String) :
    Option DocumentView :=
  (kv.docs id).map (fun m => toView m viewerToken)

/-- `DocumentStore.getVersion`: content blob lookup cross-checked against the
version list of the document metadata. -/
def getVersion (kv : KV) (id versionId : String) :
    Option (VersionMetadata × String) :=
  match kv.contents id versionId with
  | none => none
  | some content =>
    match kv.docs id with
    | none => none
    | some m =>
      (m.versions.find? (fun v => v.versionId == versionId)).map
        (fun v => (v, content))

/-- The `start` computation of `sliceIndex`: the position right after the
cursor; `indexOf` returns `-1` when the cursor is absent or not found, so
`Math.max(indexOf + 1, 0)` is `0` then. -/
def sliceStart (index : List String) (cursor : Option String) : Nat :=
  match cursor with
  | none => 0
  | some c =>
    match index.findIdx? (fun x => x == c) with
    | some i => i + 1
    | none => 0

/-- `sliceIndex`: the page is `index.slice(start, start + limit)`;
`nextCursor` is `index[start + limit - 1]` when more entries follow.  The
`0 < start + limit` guard mirrors JavaScript `index[-1]` being `undefined`. -/
def sliceIndex (index : List String) (limit : Nat) (cursor : Option String) :
    List String × Option String :=
  let start := sliceStart index cursor
  let slice := (index.drop start).take limit
  let nextCursor :=
    if start + limit < index.length then
      if 0 < start + limit then index.get? (start + limit - 1) else none
    else none
  (slice, nextCursor)

/-- `loadViews`: per-id record lookup, skipping missing records and owned
records whose owner differs from the viewer. -/
def loadViews (kv : KV) (ids : List String) (viewerToken : Option String) :
    List DocumentView :=
  match ids with
  | [] => []
  | id :: rest =>
    match kv.docs id with
    | none => loadViews kv rest viewerToken
    | some m =>
      if jsTruthy m.ownerToken ∧ m.ownerToken ≠ viewerToken then
        loadViews kv rest viewerToken
      else
        toView m viewerToken :: loadViews kv rest viewerToken

/-- `DocumentStore.listPublicDocuments`. -/
def listPublicDocuments (kv : KV) (viewerToken : Option String) (limit : Nat)
    (cursor : Option String) : List DocumentView × Option String :=
  let s := sliceIndex kv.publicIndex limit cursor
  (loadViews kv s.1 viewerToken, s.2)

/-- `DocumentStore.listOwnerDocuments`: empty result when the token is falsy
(absent or the empty string). -/
def listOwnerDocuments (kv : KV) (ownerToken : Option String) (limit : Nat)
    (cursor : Option String) : List DocumentView × Option String :=
  match ownerToken with
  | none => ([], none)
  | some t =>
    if t = "" then ([], none)
    else
      let s := sliceIndex (kv.ownerIndex t) limit cursor
      (loadViews kv s.1 (some t), s.2)

/-- The HTTP error kinds produced by the router (`errors.ts`); `internal`
stands for an uncaught JavaScript exception (status 500). -/
inductive HErr where
  | badRequest
  | forbidden
  | notFound
  | internal
deriving DecidableEq

/-- The tail of the raw-content handler: fetch the chosen version's content
through `store.getVersion` and return it. -/
def rawFetch (kv : KV) (id : String) (v : VersionMetadata) :
    Except HErr String :=
  match getVersion kv id v.versionId with
  | none => .error .notFound
  | some fullVersion => .ok fullVersion.2

/-- The raw-content handler falling back to `document.versions[0]`; an empty
version list makes the JavaScript handler crash on
`version.versionId` (modelled as `internal`). -/
def rawLatest (kv : KV) (id : String) (doc : DocumentView) :
    Except HErr String :=
  match doc.versions.head? with
  | none => .error .internal
  | some v => rawFetch kv id v

/-- `GET /api/documents/:id/raw` (`router.ts`): looks the document up with
the viewer token, grants access to owners and to public documents, otherwise
requires the query `rawKey` to be present and strictly equal to the view's
`rawAccessKey`; then serves the requested (or latest) version's content. -/
def getRaw (kv : KV) (id : String) (versionIdQ rawKeyQ viewerToken :
    Option String) : Except HErr String :=
  match getDocument kv id viewerToken with
  | none => .error .notFound
  | some doc =>
    if (!doc.isOwner && doc.isPrivate) &&
        (!(jsTruthy rawKeyQ) || !(jsTruthy doc.rawAccessKey) ||
          rawKeyQ != doc.rawAccessKey) then
      .error .forbidden
    else
      match versionIdQ with
      | none => rawLatest kv id doc
      | some vq =>
        if vq = "" then rawLatest kv id doc
        else
          match doc.versions.find? (fun v => v.versionId == vq) with
          | none => .error .notFound
          | some v => rawFetch kv id v

/-- `DELETE /api/documents/:id` (`router.ts`): rejects a falsy
`x-user-token` header before calling the store, then translates the store
errors; `fileTooLarge` is never raised by `deleteDocument` and would be
rethrown as an internal error. -/
def httpDelete (kv : KV) (id : String) (headerToken : Option String) :
    Except HErr KV :=
  if !(jsTruthy headerToken) then .error .forbidden
  else
    match deleteDocument kv id headerToken with
    | .ok kv2 => .ok kv2
    | .error .notFound => .error .notFound
    | .error .forbidden => .error .forbidden
    | .error .fileTooLarge => .error .internal

/-- The standard base64 alphabet. -/
def b64Alphabet : List Char :=
  "ABCDEFGHIJKLMNOPQRSTUVWXYZabcdefghijklmnopqrstuvwxyz0123456789+/".toList

/-- The base64 digit for a sextet value. -/
def b64Char (n : Nat) : Char := b64Alphabet.getD n 'A'

/-- The sextet value of a base64 digit, `none` for characters outside the
alphabet (in particular for the padding character). -/
def b64Index (c : Char) : Option Nat :=
  b64Alphabet.findIdx? (fun x => x == c)

/-- Base64 encoding of a byte sequence (the body of `btoa`): three bytes per
quad, with `=` padding for a final group of one or two bytes. -/
def b64EncodeBytes : List Nat → List Char
  | [] => []
  | [b1] => [b64Char (b1 / 4), b64Char (b1 % 4 * 16), '=', '=']
  | [b1, b2] =>
    [b64Char (b1 / 4), b64Char (b1 % 4 * 16 + b2 / 16), b64Char (b2 % 16 * 4),
     '=']
  | b1 :: b2 :: b3 :: rest =>
    b64Char (b1 / 4) :: b64Char (b1 % 4 * 16 + b2 / 16) ::
      b64Char (b2 % 16 * 4 + b3 / 64) :: b64Char (b3 % 64) ::
        b64EncodeBytes rest

/-- Base64 decoding (the body of `atob`), restricted to the canonical padded
format that `b64EncodeBytes` produces; `atob` additionally tolerates missing
padding and whitespace, which only makes this model reject some inputs that
`atob` would accept — never the other way around. -/
def b64DecodeChars : List Char → Option (List Nat)
  | [] => some []
  | c1 :: c2 :: c3 :: c4 :: rest =>
    if rest.isEmpty ∧ c3 = '=' ∧ c4 = '=' then
      match b64Index c1, b64Index c2 with
      | some n1, some n2 => some [n1 * 4 + n2 / 16]
      | _, _ => none
    else if rest.isEmpty ∧ c4 = '=' then
      match b64Index c1, b64Index c2, b64Index c3 with
      | some n1, some n2, some n3 =>
        some [n1 * 4 + n2 / 16, n2 % 16 * 16 + n3 / 4]
      | _, _, _ => none
    else
      match b64Index c1, b64Index c2, b64Index c3, b64Index c4,
          b64DecodeChars rest with
      | some n1, some n2, some n3, some n4, some bs =>
        some ((n1 * 4 + n2 / 16) :: (n2 % 16 * 16 + n3 / 4) ::
          (n3 % 4 * 64 + n4) :: bs)
      | _, _, _, _, _ => none
  | _ => none

/-- `btoa`: base64 over the code points of a latin-1 string; JavaScript
throws on a character above `U+00FF`, modelled as `none`. -/
def btoaM (s : String) : Option String :=
  if s.data.all (fun c => c.toNat < 256) then
    some (String.mk (b64EncodeBytes (s.data.map Char.toNat)))
  else none

/-- `atob`: base64 decoding back to a latin-1 string, `none` on malformed
input (JavaScript throws there, and `verifyShareToken` catches). -/
def atobM (s : String) : Option String :=
  (b64DecodeChars s.data).map (fun bs => String.mk (bs.map Char.ofNat))

/-- `timingSafeEqual` of `auth.ts`: length check, then an OR-accumulation of
the XOR of the code units. -/
def timingSafeEqual (a b : String) : Bool :=
  if a.length ≠ b.length then false
  else
    ((a.data.zip b.data).foldl
      (fun result p => result ||| (p.1.toNat ^^^ p.2.toNat)) 0) == 0

/-- `ShareTokenPayload` of `types.ts`: document id and expiry epoch-ms. -/
structure ShareTokenPayload where
  documentId : String
  expiresAt : Nat
deriving DecidableEq

/-- Decimal digit characters of a natural number, most significant first
(the integer case of `JSON.stringify` on a number). -/
def natToCharsGo : Nat → List Char → List Char
  | 0, acc => acc
  | n + 1, acc =>
    natToCharsGo ((n + 1) / 10) (Char.ofNat (48 + (n + 1) % 10) :: acc)
termination_by n _ => n
decreasing_by exact Nat.div_lt_self (Nat.succ_pos n) (by norm_num)

/-- Decimal rendering of a natural number. -/
def natToChars (n : Nat) : List Char :=
  if n = 0 then ['0'] else natToCharsGo n []

/-- Value of a most-significant-first digit string. -/
def digitsVal (cs : List Char) : Nat :=
  cs.foldl (fun acc c => acc * 10 + (c.toNat - 48)) 0

/-- `JSON.stringify(payload)` for the two-field share-token payload, for
document ids that need no JSON string escaping (nanoid ids never do). -/
def encodePayload (p : ShareTokenPayload) : String :=
  "\x7b\"documentId\":\"" ++ p.documentId ++ "\",\"expiresAt\":" ++
    String.mk (natToChars p.expiresAt) ++ "\x7d"

/-- Consume an exact character sequence from the front of a list. -/
def dropExact : List Char → List Char → Option (List Char)
  | [], cs => some cs
  | _ :: _, [] => none
  | p :: ps, c :: cs => if c = p then dropExact ps cs else none

/-- Split a character list at the first double quote. -/
def spanToQuote : List Char → Option (List Char × List Char)
  | [] => none
  | c :: cs =>
    if c = '"' then some ([], cs)
    else (spanToQuote cs).map (fun pr => (c :: pr.1, pr.2))

/-- `JSON.parse(data) as ShareTokenPayload`, restricted to the canonical
shape `encodePayload` produces.  `JSON.parse` also accepts reordered or
escaped variants; the restriction only makes this model reject inputs the
source would accept, which is sound for the properties proved below. -/
def parsePayload (s : String) : Option ShareTokenPayload :=
  match dropExact "\x7b\"documentId\":\"".toList s.toList with
  | none => none
  | some rest1 =>
    match spanToQuote rest1 with
    | none => none
    | some (idChars, rest2) =>
      match dropExact ",\"expiresAt\":".toList rest2 with
      | none => none
      | some rest3 =>
        let ds := rest3.takeWhile Char.isDigit
        let rest4 := rest3.dropWhile Char.isDigit
        if ds = [] then none
        else if rest4 = ['\x7d'] then
          some { documentId := String.mk idChars, expiresAt := digitsVal ds }
        else none

/-- JavaScript `String.prototype.split` with a one-character separator,
over character lists: `splitOnCharAux sep cs acc` accumulates the current
field in reverse in `acc`. -/
def splitOnCharAux (sep : Char) : List Char → List Char → List (List Char)
  | [], acc => [acc.reverse]
  | c :: cs, acc =>
    if c = sep then acc.reverse :: splitOnCharAux sep cs []
    else splitOnCharAux sep cs (c :: acc)

/-- `decoded.split(".")` of `auth.ts`, as a list of strings. -/
def splitParts (s : String) : List String :=
  (splitOnCharAux '.' s.data []).map String.mk

/-- `createShareToken` of `auth.ts`: serialize, sign (HMAC-SHA256 hex, the
external `sign` is a parameter), concatenate with a dot, base64-encode. -/
def createShareToken (sign : String → String → String)
    (payload : ShareTokenPayload) (secret : String) : Option String :=
  let data := encodePayload payload
  btoaM (data ++ "." ++ sign data secret)

/-- `verifyShareToken` of `auth.ts`: base64-decode, split on the first dots,
reject falsy parts, constant-time-compare the signature, parse the payload,
reject a past expiry; every failure is `none` (the source catches and
returns `null`).  `now` is the external `Date.now()` reading. -/
def verifyShareToken (sign : String → String → String) (now : Nat)
    (token secret : String) : Option ShareTokenPayload :=
  match atobM token with
  | none => none
  | some decoded =>
    let parts := splitParts decoded
    let data := parts.getD 0 ""
    let signature := parts.getD 1 ""
    if data = "" then none
    else if signature = "" then none
    else if !(timingSafeEqual signature (sign data secret)) then none
    else
      match parsePayload data with
      | none => none
      | some payload =>
        if payload.expiresAt < now then none else some payload

/-- One `updateDocument` call of a sequence: its content, caller token and
random inputs. -/
structure UpdateStep where
  content : String
  token : Option String
  e : Entropy

/-- A sequence of `updateDocument` calls on one document; `none` as soon as
one of them fails. -/
def runUpdates (st : Store) : KV → String → List UpdateStep → Option KV
  | kv, _, [] => some kv
  | kv, id, s :: rest =>
    match updateDocument st kv id s.content s.token s.e with
    | .ok res => runUpdates st res.1 id rest
    | .error _ => none

/-- The ownership check of `updateDocument`/`deleteDocument` passes exactly
when the normalised caller token equals the normalised stored token. -/
def ownershipOk (m : StoredDocumentMetadata) (tokIn : Option String) : Prop :=
  normalizeToken tokIn = normalizeToken m.ownerToken

/-- Document ids for which `encodePayload` coincides with `JSON.stringify`
and which survive the dot-split of `verifyShareToken`: printable latin-1,
no double quote, no backslash, no dot.  Every nanoid id satisfies this. -/
def goodId (s : String) : Prop :=
  ∀ c ∈ s.data, 32 ≤ c.toNat ∧ c.toNat < 256 ∧ c ≠ '"' ∧ c ≠ '\\' ∧ c ≠ '.'

/-- Signature strings as produced by the hex HMAC: non-empty, latin-1, and
free of dots. -/
def goodSig (s : String) : Prop :=
  s ≠ "" ∧ ∀ c ∈ s.data, c.toNat < 256 ∧ c ≠ '.'

/-- Concrete signing function standing in for the HMAC in witness states
and counterexamples. -/
def exSign : String → String → String := fun _ _ => "sig"

/-- Concrete store configuration used by witnesses and counterexamples:
size limit 10 bytes. -/
def exStore : Store := { maxSize := 10, hash := fun _ => "h" }

/-- Concrete first version used by the witness states. -/
def exVm : VersionMetadata :=
  { versionId := "v0", createdAt := "t0", size := 5, hash := "h" }

/-- Concrete owned document (owner token `tok`, raw key `k0`). -/
def exOwnedDoc : StoredDocumentMetadata :=
  { id := "d", title := "a.md", createdAt := "t0", updatedAt := "t0",
    size := 5, versions := [exVm], ownerToken := some "tok",
    rawAccessKey := some "k0" }

/-- Concrete public document. -/
def exPubDoc : StoredDocumentMetadata :=
  { id := "p", title := "b.md", createdAt := "t0", updatedAt := "t0",
    size := 5, versions := [exVm], ownerToken := none, rawAccessKey := none }

/-- The empty backing store. -/
def emptyKV : KV :=
  { docs := fun _ => none, contents := fun _ _ => none, publicIndex := [],
    ownerIndex := fun _ => [] }

/-- Concrete backing store holding one owned and one public document. -/
def exKV : KV :=
  { docs := fun d =>
      if d = "d" then some exOwnedDoc
      else if d = "p" then some exPubDoc
      else none,
    contents := fun d v =>
      if (d = "d" ∨ d = "p") ∧ v = "v0" then some "hello" else none,
    publicIndex := ["p"],
    ownerIndex := fun t => if t = "tok" then ["d"] else [] }

/-- Concrete random inputs for one update. -/
def exE : Entropy := { versionId := "v1", now := "t1", rawKey := "k1" }

/-- The result of one concrete successful `createDocument`, used by the
version-sequence witness. -/
def wCreateRes : KV × DocumentView × VersionMetadata :=
  match createDocument exStore emptyKV "t" "hello" none "nd" exE with
  | .ok r => r
  | .error _ => (emptyKV, toView exPubDoc none, exVm)

/-- The result of one concrete successful `updateDocument` on the owned
document, used by the raw-key-rotation witness. -/
def wUpdRes : KV × DocumentView × VersionMetadata :=
  match updateDocument exStore exKV "d" "bye" (some "tok") exE with
  | .ok r => r
  | .error _ => (emptyKV, toView exPubDoc none, exVm)

/-! ## Shared lemmas -/

theorem jsTruthy_some_ne {t : String} (h : t ≠ "") :
    jsTruthy (some t) = true := by
  simp [jsTruthy, h]

theorem normalizeToken_some_trimmed {t : String} (htr : jsTrim t = t)
    (hne : t ≠ "") : normalizeToken (some t) = some t := by
  simp [normalizeToken, htr, hne]

/-! ## C2: the sanitized view -/

/-- C2: the view of a stored document never carries the owner token: its
`isOwner` flag holds exactly for the owner, `isPrivate` reflects the
presence of an owner, every other field is independent of the viewer token,
and two stored documents differing only in the (non-empty) owner token give
identical views to correspondingly-matching viewers. -/
theorem toView_hides_ownerToken (m : StoredDocumentMetadata) (t : String)
    (v v' : Option String) (ht : t ≠ "") (hm : m.ownerToken = some t) :
    ((toView m v).isOwner = true ↔ v = some t)
    ∧ (toView m v).isPrivate = true
    ∧ toView m v = { toView m v' with isOwner := (toView m v).isOwner }
    ∧ (∀ t2 v2, t2 ≠ "" → (v = some t ↔ v2 = some t2) →
        toView { m with ownerToken := some t2 } v2 = toView m v)
    ∧ (∀ m2 : StoredDocumentMetadata, m2.ownerToken = none →
        (toView m2 v).isOwner = false ∧ (toView m2 v).isPrivate = false) := by
  refine ⟨?_, ?_, rfl, ?_, ?_⟩
  · simp [toView, jsTruthy, hm, ht]
  · simp [toView, jsTruthy, hm, ht]
  · intro t2 v2 ht2 hiff
    have hb : (v2 == some t2) = (v == some t) := by
      rw [Bool.eq_iff_iff]
      simp [hiff]
    have e1 : (t2 == "") = false := by simp [ht2]
    have e2 : (t == "") = false := by simp [ht]
    simp [toView, jsTruthy, hm, ht, ht2, hb, e1, e2]
  · intro m2 h2
    simp [toView, jsTruthy, h2]

/-- C2 witness at a concrete owned document and viewers. -/
theorem toView_hides_ownerToken_witness :
    toView exOwnedDoc (some "tok")
      = { toView exOwnedDoc none with
          isOwner := (toView exOwnedDoc (some "tok")).isOwner } :=
  (toView_hides_ownerToken exOwnedDoc "tok" (some "tok") none (by decide)
    rfl).2.2.1

/-! ## C9: viewer independence and raw-key exposure -/

/-- C9: for a fixed stored document, `getDocument` with two viewer tokens
returns views that agree on everything except `isOwner`; when the document
is owned, the view handed to every viewer (owner or not) carries the
document's current `rawAccessKey`. -/
theorem getDocument_viewer_independence (kv : KV) (id : String)
    (m : StoredDocumentMetadata) (v1 v2 : Option String)
    (hm : kv.docs id = some m) :
    (getDocument kv id v1).map (fun w => { w with isOwner := false })
      = (getDocument kv id v2).map (fun w => { w with isOwner := false })
    ∧ (∀ t, t ≠ "" → m.ownerToken = some t →
        getDocument kv id v1 = some (toView m v1)
        ∧ (toView m v1).rawAccessKey = m.rawAccessKey) := by
  constructor
  · simp only [getDocument, hm, Option.map_some']
    rfl
  · intro t ht hmt
    exact ⟨by simp [getDocument, hm], by simp [toView, jsTruthy, hmt, ht]⟩

/-- C9 witness: a non-owner viewer of the concrete owned document still
receives the raw access key in the view. -/
theorem getDocument_viewer_independence_witness :
    (toView exOwnedDoc none).rawAccessKey = exOwnedDoc.rawAccessKey :=
  ((getDocument_viewer_independence exKV "d" exOwnedDoc none (some "other")
    rfl).2 "tok" (by decide) rfl).2

/-! ## Reduction lemmas for update and delete -/

/-- When the size check passes, the record exists and the ownership check
passes, `updateDocument` reaches its write phase. -/
theorem updateDocument_eq_go (st : Store) (kv : KV) (id content : String)
    (tokIn : Option String) (e : Entropy) (m : StoredDocumentMetadata)
    (hm : kv.docs id = some m) (hsize : content.utf8ByteSize ≤ st.maxSize)
    (hok : ownershipOk m tokIn) :
    updateDocument st kv id content tokIn e
      = updateDocumentGo st kv id content m (normalizeToken m.ownerToken)
          (normalizeToken tokIn) e := by
  unfold ownershipOk at hok
  unfold updateDocument
  rw [if_neg (by omega), hm]
  cases ho : normalizeToken m.ownerToken with
  | none =>
    have h2 : normalizeToken tokIn = none := hok.trans ho
    simp [ho, h2]
  | some o =>
    have h2 : normalizeToken tokIn = some o := hok.trans ho
    simp [ho, h2]

/-- When the size check passes, the record exists and the ownership check
fails, `updateDocument` is forbidden. -/
theorem updateDocument_forbidden (st : Store) (kv : KV) (id content : String)
    (tokIn : Option String) (e : Entropy) (m : StoredDocumentMetadata)
    (hm : kv.docs id = some m) (hsize : content.utf8ByteSize ≤ st.maxSize)
    (hbad : ¬ ownershipOk m tokIn) :
    updateDocument st kv id content tokIn e = .error .forbidden := by
  unfold ownershipOk at hbad
  unfold updateDocument
  rw [if_neg (by omega), hm]
  cases ho : normalizeToken m.ownerToken with
  | none =>
    rw [ho] at hbad
    simp only [Option.ne_none_iff_isSome] at hbad
    simp [ho, hbad]
  | some o =>
    rw [ho] at hbad
    simp [ho, Ne.symm hbad]

/-- When the record exists and the ownership check passes, `deleteDocument`
deletes. -/
theorem deleteDocument_eq_go (kv : KV) (id : String) (tokIn : Option String)
    (m : StoredDocumentMetadata) (hm : kv.docs id = some m)
    (hok : ownershipOk m tokIn) :
    deleteDocument kv id tokIn
      = .ok (deleteDocumentGo kv id m (normalizeToken m.ownerToken)) := by
  unfold ownershipOk at hok
  unfold deleteDocument
  rw [hm]
  cases ho : normalizeToken m.ownerToken with
  | none =>
    have h2 : normalizeToken tokIn = none := hok.trans ho
    simp [ho, h2]
  | some o =>
    have h2 : normalizeToken tokIn = some o := hok.trans ho
    simp [ho, h2]

/-- When the record exists and the ownership check fails, `deleteDocument`
is forbidden. -/
theorem deleteDocument_forbidden (kv : KV) (id : String)
    (tokIn : Option String) (m : StoredDocumentMetadata)
    (hm : kv.docs id = some m) (hbad : ¬ ownershipOk m tokIn) :
    deleteDocument kv id tokIn = .error .forbidden := by
  unfold ownershipOk at hbad
  unfold deleteDocument
  rw [hm]
  cases ho : normalizeToken m.ownerToken with
  | none =>
    rw [ho] at hbad
    simp only [Option.ne_none_iff_isSome] at hbad
    simp [ho, hbad]
  | some o =>
    rw [ho] at hbad
    simp [ho, Ne.symm hbad]

/-! ## C1: ownership enforcement on update and delete -/

/-- C1 counterexample: the stored owner token is `tok`, the caller supplies
the different string `(space)tok`, yet neither `updateDocument` nor
`deleteDocument` fails: the store trims the caller token first, so the
comparison is not against the exact caller string. -/
theorem update_delete_untrimmed_token_not_forbidden :
    (updateDocument exStore exKV "d" "c" (some " tok") exE).isOk = true
    ∧ (deleteDocument exKV "d" (some " tok")).isOk = true := by
  constructor
  · rfl
  · rfl

/-- C1 (amended): comparing tokens after trimming, an update or delete whose
trimmed caller token differs from the trimmed stored owner token fails
`FORBIDDEN`; in particular for a document without an owner every caller
token that is non-empty after trimming fails `FORBIDDEN`. -/
theorem update_delete_forbidden_on_token_mismatch (st : Store) (kv : KV)
    (id content : String) (tokIn : Option String) (e : Entropy)
    (m : StoredDocumentMetadata) (hm : kv.docs id = some m)
    (hsize : content.utf8ByteSize ≤ st.maxSize)
    (hbad : normalizeToken tokIn ≠ normalizeToken m.ownerToken) :
    updateDocument st kv id content tokIn e = .error .forbidden
    ∧ deleteDocument kv id tokIn = .error .forbidden :=
  ⟨updateDocument_forbidden st kv id content tokIn e m hm hsize hbad,
   deleteDocument_forbidden kv id tokIn m hm hbad⟩

/-- C1 witness: a wrong caller token on the concrete owned document. -/
theorem update_delete_forbidden_on_token_mismatch_witness :
    updateDocument exStore exKV "d" "c" (some "other") exE
      = .error .forbidden :=
  (update_delete_forbidden_on_token_mismatch exStore exKV "d" "c"
    (some "other") exE exOwnedDoc rfl (by decide) (by decide)).1

/-! ## C5: the size boundary -/

/-- C5: content of exactly the configured maximum byte size is accepted by
`createDocument` and by `updateDocument` (on an existing document whose
ownership check passes), while content exceeding the maximum fails
`FILE_TOO_LARGE` in both; the size check precedes every backing-store
write, so the error result carries no state change. -/
theorem size_limit_boundary (st : Store) (kv : KV)
    (title content big id : String) (tokIn : Option String) (e : Entropy)
    (m : StoredDocumentMetadata)
    (hexact : content.utf8ByteSize = st.maxSize)
    (hbig : st.maxSize < big.utf8ByteSize)
    (hm : kv.docs id = some m) (hok : ownershipOk m tokIn) :
    (createDocument st kv title content tokIn id e).isOk = true
    ∧ (updateDocument st kv id content tokIn e).isOk = true
    ∧ createDocument st kv title big tokIn id e = .error .fileTooLarge
    ∧ updateDocument st kv id big tokIn e = .error .fileTooLarge := by
  refine ⟨?_, ?_, ?_, ?_⟩
  · unfold createDocument
    rw [if_neg (by omega)]
    rfl
  · rw [updateDocument_eq_go st kv id content tokIn e m hm (by omega) hok]
    rfl
  · unfold createDocument
    rw [if_pos (by omega)]
  · unfold updateDocument
    rw [if_pos (by omega)]

/-- C5 witness: 10-byte content at the 10-byte limit succeeds, 11-byte
content fails, on the concrete public document. -/
theorem size_limit_boundary_witness :
    (updateDocument exStore exKV "p" "0123456789" none exE).isOk = true :=
  (size_limit_boundary exStore exKV "t" "0123456789" "0123456789x" "p" none
    exE exPubDoc (by decide) (by decide) rfl rfl).2.1

/-! ## C6: update of a missing document -/

/-- C6 counterexample: `updateDocument` checks the size limit before the
record lookup, so with oversized content and a missing id it fails
`FILE_TOO_LARGE`, not `NOT_FOUND`. -/
theorem update_missing_oversize_fileTooLarge :
    updateDocument exStore emptyKV "x" "0123456789x" none exE
      = .error .fileTooLarge
    ∧ updateDocument exStore emptyKV "x" "0123456789x" none exE
      ≠ .error .notFound := by
  refine ⟨rfl, ?_⟩
  intro h
  rw [show updateDocument exStore emptyKV "x" "0123456789x" none exE
      = (.error .fileTooLarge :
          Except StoreErr (KV × DocumentView × VersionMetadata)) from rfl] at h
  simp at h

/-- C6 (amended): for content within the size limit, `updateDocument` on an
id with no document record fails `NOT_FOUND`, for every caller token. -/
theorem updateDocument_missing_notFound (st : Store) (kv : KV)
    (id content : String) (tokIn : Option String) (e : Entropy)
    (hsize : content.utf8ByteSize ≤ st.maxSize) (hid : kv.docs id = none) :
    updateDocument st kv id content tokIn e = .error .notFound := by
  unfold updateDocument
  rw [if_neg (by omega), hid]

/-- C6 witness: a small update of a missing id on the empty store. -/
theorem updateDocument_missing_notFound_witness :
    updateDocument exStore emptyKV "x" "c" (some "tok") exE
      = .error .notFound :=
  updateDocument_missing_notFound exStore emptyKV "x" "c" (some "tok") exE
    (by decide) rfl

/-! ## C4: the version sequence -/

/-- A successful `createDocument` stores a one-entry version sequence. -/
theorem createDocument_ok_inv (st : Store) (kv : KV)
    (title content : String) (tokIn : Option String) (id : String)
    (e : Entropy) (kv1 : KV) (view : DocumentView) (vm : VersionMetadata)
    (h : createDocument st kv title content tokIn id e = .ok (kv1, view, vm)) :
    (kv1.docs id).map (fun mm => mm.versions) = some [vm] := by
  unfold createDocument at h
  by_cases hs : content.utf8ByteSize > st.maxSize
  · rw [if_pos hs] at h
    exact Except.noConfusion h
  · rw [if_neg hs] at h
    cases hno : normalizeToken tokIn with
    | none =>
      simp only [hno, Option.isSome_none, Bool.not_false, Except.ok.injEq,
        Prod.ext_iff] at h
      obtain ⟨h1, h2, h3⟩ := h
      subst h1
      subst h3
      simp [KV.updatePublicIndex, KV.putVersion, KV.putRecord, pushToIndex]
    | some o =>
      simp only [hno, Option.isSome_some, Bool.not_true, Except.ok.injEq,
        Prod.ext_iff] at h
      obtain ⟨h1, h2, h3⟩ := h
      subst h1
      subst h3
      simp [KV.touchOwnerIndex, KV.updatePublicIndex, KV.putVersion,
        KV.putRecord, removeFromIndex]

/-- `updateDocumentGo` stores the record with the new version prepended. -/
theorem updateDocumentGo_docs (st : Store) (kv : KV) (id content : String)
    (m : StoredDocumentMetadata) (eo tok : Option String) (e : Entropy)
    (kv1 : KV) (view : DocumentView) (vm : VersionMetadata)
    (h : updateDocumentGo st kv id content m eo tok e = .ok (kv1, view, vm)) :
    (kv1.docs id).map (fun mm => mm.versions) = some (vm :: m.versions) := by
  unfold updateDocumentGo at h
  cases eo with
  | none =>
    simp only [Option.isSome_none, Bool.not_false, Except.ok.injEq,
      Prod.ext_iff] at h
    obtain ⟨h1, h2, h3⟩ := h
    subst h1
    subst h3
    simp [KV.updatePublicIndex, KV.putVersion, KV.putRecord, pushToIndex]
  | some o =>
    simp only [Option.isSome_some, Bool.not_true, Except.ok.injEq,
      Prod.ext_iff] at h
    obtain ⟨h1, h2, h3⟩ := h
    subst h1
    subst h3
    simp [KV.touchOwnerIndex, KV.updatePublicIndex, KV.putVersion,
      KV.putRecord, removeFromIndex]

/-- Inversion of a successful `updateDocument`: the stored record afterwards
has exactly the returned version prepended to the previous sequence. -/
theorem updateDocument_ok_inv (st : Store) (kv : KV) (id content : String)
    (tokIn : Option String) (e : Entropy) (m : StoredDocumentMetadata)
    (kv1 : KV) (view : DocumentView) (vm : VersionMetadata)
    (hm : kv.docs id = some m)
    (h : updateDocument st kv id content tokIn e = .ok (kv1, view, vm)) :
    (kv1.docs id).map (fun mm => mm.versions) = some (vm :: m.versions) := by
  unfold updateDocument at h
  by_cases hs : content.utf8ByteSize > st.maxSize
  · rw [if_pos hs] at h
    exact Except.noConfusion h
  · rw [if_neg hs, hm] at h
    dsimp only at h
    by_cases ho : (normalizeToken m.ownerToken).isSome
    · rw [if_pos ho] at h
      by_cases hne : normalizeToken m.ownerToken ≠ normalizeToken tokIn
      · rw [if_pos hne] at h
        exact Except.noConfusion h
      · rw [if_neg hne] at h
        exact updateDocumentGo_docs st kv id content m _ _ e kv1 view vm h
    · rw [if_neg ho] at h
      by_cases ht : (normalizeToken tokIn).isSome
      · rw [if_pos ht] at h
        exact Except.noConfusion h
      · rw [if_neg ht] at h
        exact updateDocumentGo_docs st kv id content m _ _ e kv1 view vm h

/-- Over a whole sequence of successful updates, the version sequence grows
by exactly one entry per update and keeps the previous entries as a
suffix. -/
theorem runUpdates_inv (st : Store) (steps : List UpdateStep) :
    ∀ kv id m kvN, kv.docs id = some m →
      runUpdates st kv id steps = some kvN →
      (kvN.docs id).map
          (fun mm => (mm.versions.length, mm.versions.drop steps.length))
        = some (m.versions.length + steps.length, m.versions) := by
  induction steps with
  | nil =>
    intro kv id m kvN hm hrun
    unfold runUpdates at hrun
    injection hrun with hrun
    subst hrun
    simp [hm]
  | cons s rest ih =>
    intro kv id m kvN hm hrun
    unfold runUpdates at hrun
    cases hu : updateDocument st kv id s.content s.token s.e with
    | error err =>
      rw [hu] at hrun
      exact Option.noConfusion hrun
    | ok res =>
      rw [hu] at hrun
      obtain ⟨kv1, view, vm⟩ := res
      have hdoc := updateDocument_ok_inv st kv id s.content s.token s.e m
        kv1 view vm hm hu
      cases hk : kv1.docs id with
      | none => rw [hk] at hdoc; exact Option.noConfusion hdoc
      | some m1 =>
        rw [hk] at hdoc
        injection hdoc with hdoc
        have hrec := ih kv1 id m1 kvN hk hrun
        cases hkN : kvN.docs id with
        | none => rw [hkN] at hrec; exact Option.noConfusion hrec
        | some mN =>
          rw [hkN] at hrec
          injection hrec with hrec
          rw [Prod.ext_iff] at hrec
          obtain ⟨hlen, hdrop⟩ := hrec
          dsimp only at hdoc hlen hdrop
          simp only [hkN, Option.map_some', Option.some.injEq, Prod.ext_iff]
          constructor
          · dsimp only [List.length_cons]
            rw [hlen, hdoc]
            simp only [List.length_cons]
            omega
          · have hdd : mN.versions.drop (rest.length + 1)
                = (mN.versions.drop rest.length).drop 1 := by
              rw [List.drop_drop, Nat.add_comm]
            dsimp only [List.length_cons]
            rw [hdd, hdrop, hdoc]
            simp

/-- C4: `createDocument` stores a one-entry version sequence; every
successful `updateDocument` prepends exactly the returned version, leaving
the earlier entries untouched; and a run of N successful updates after a
create yields exactly N + 1 versions with the previous sequence as suffix,
so `versions[0]` is always the most recently added version. -/
theorem versions_prepend_only (st : Store) :
    (∀ kv title content tokIn id e kv1 view vm,
      createDocument st kv title content tokIn id e = .ok (kv1, view, vm) →
      (kv1.docs id).map (fun mm => mm.versions) = some [vm])
    ∧ (∀ kv id content tokIn e m kv1 view vm, kv.docs id = some m →
      updateDocument st kv id content tokIn e = .ok (kv1, view, vm) →
      (kv1.docs id).map (fun mm => mm.versions) = some (vm :: m.versions))
    ∧ (∀ steps kv id m kvN, kv.docs id = some m →
      runUpdates st kv id steps = some kvN →
      (kvN.docs id).map
          (fun mm => (mm.versions.length, mm.versions.drop steps.length))
        = some (m.versions.length + steps.length, m.versions))
    ∧ (∀ kv title content tokIn id e kv1 view vm steps kvN,
      createDocument st kv title content tokIn id e = .ok (kv1, view, vm) →
      runUpdates st kv1 id steps = some kvN →
      (kvN.docs id).map (fun mm => mm.versions.length)
        = some (steps.length + 1)) := by
  refine ⟨?_, ?_, ?_, ?_⟩
  · intro kv title content tokIn id e kv1 view vm h
    exact createDocument_ok_inv st kv title content tokIn id e kv1 view vm h
  · intro kv id content tokIn e m kv1 view vm hm h
    exact updateDocument_ok_inv st kv id content tokIn e m kv1 view vm hm h
  · intro steps kv id m kvN hm hrun
    exact runUpdates_inv st steps kv id m kvN hm hrun
  · intro kv title content tokIn id e kv1 view vm steps kvN hc hrun
    have h0 := createDocument_ok_inv st kv title content tokIn id e kv1 view
      vm hc
    cases hk : kv1.docs id with
    | none => rw [hk] at h0; exact Option.noConfusion h0
    | some m0 =>
      rw [hk] at h0
      injection h0 with h0
      have hrec := runUpdates_inv st steps kv1 id m0 kvN hk hrun
      cases hkN : kvN.docs id with
      | none => rw [hkN] at hrec; exact Option.noConfusion hrec
      | some mN =>
        rw [hkN] at hrec
        injection hrec with hrec
        rw [Prod.ext_iff] at hrec
        obtain ⟨hlen, hdrop⟩ := hrec
        dsimp only at h0 hlen hdrop
        simp only [hkN, Option.map_some', Option.some.injEq]
        rw [hlen, h0]
        simp [Nat.add_comm]

/-- C4 witness: the version sequence of a concrete created document. -/
theorem versions_prepend_only_witness :
    (wCreateRes.1.docs "nd").map (fun mm => mm.versions)
      = some [wCreateRes.2.2] :=
  (versions_prepend_only exStore).1 emptyKV "t" "hello" none "nd" exE
    wCreateRes.1 wCreateRes.2.1 wCreateRes.2.2 rfl

/-! ## C10: deleting a public document over HTTP -/

/-- Deleting version blobs does not change the record table. -/
theorem docs_foldl_deleteVersion (id : String) (vs : List VersionMetadata) :
    ∀ kv : KV,
      (vs.foldl (fun acc v => acc.deleteVersion id v.versionId) kv).docs
        = kv.docs := by
  induction vs with
  | nil => intro kv; rfl
  | cons v rest ih =>
    intro kv
    simp only [List.foldl_cons]
    rw [ih]
    rfl

/-- The write phase of `deleteDocument` removes the record. -/
theorem deleteDocumentGo_docs_id (kv : KV) (id : String)
    (m : StoredDocumentMetadata) (eo : Option String) :
    (deleteDocumentGo kv id m eo).docs id = none := by
  unfold deleteDocumentGo
  cases eo with
  | none =>
    rw [docs_foldl_deleteVersion]
    simp [KV.updatePublicIndex, KV.deleteRecord]
  | some o =>
    rw [docs_foldl_deleteVersion]
    simp [KV.removeFromOwnerIndex, KV.updatePublicIndex, KV.deleteRecord]

/-- C10 counterexample: a whitespace-only header token is truthy, so the
router lets it through, and the store trims it to nothing, so the ownership
check treats it as no token at all: the HTTP delete removes the public
document. -/
theorem httpDelete_whitespace_token_deletes_public :
    (httpDelete exKV "p" (some " ")).map (fun kv2 => kv2.docs "p")
      = .ok none := by
  rfl

/-- C10 (amended): the HTTP delete endpoint rejects a public document for
every header token that is absent, empty, or non-empty after trimming —
every header value except the whitespace-only ones, which HTTP header
normalisation prevents from arriving — while `deleteDocument` called
directly with no token does remove the public document. -/
theorem httpDelete_public_guarded (kv : KV) (id : String)
    (ht : Option String) (m : StoredDocumentMetadata)
    (hm : kv.docs id = some m) (hpub : normalizeToken m.ownerToken = none)
    (hws : ∀ s, ht = some s → s ≠ "" → jsTrim s ≠ "") :
    httpDelete kv id ht = .error .forbidden
    ∧ (deleteDocument kv id none).map (fun kv2 => kv2.docs id)
        = .ok none := by
  constructor
  · unfold httpDelete
    cases ht with
    | none => simp [jsTruthy]
    | some sx =>
      by_cases hse : sx = ""
      · subst hse
        simp [jsTruthy]
      · have hns : jsTrim sx ≠ "" := hws sx rfl hse
        have hdel : deleteDocument kv id (some sx) = .error .forbidden :=
          deleteDocument_forbidden kv id (some sx) m hm (by
            unfold ownershipOk
            rw [hpub]
            simp [normalizeToken, hns])
        have e1 : (sx == "") = false := by simp [hse]
        simp [jsTruthy, e1, hdel]
  · rw [deleteDocument_eq_go kv id none m hm (by
      unfold ownershipOk
      rw [hpub]
      rfl)]
    rw [hpub]
    simp [Except.map, deleteDocumentGo_docs_id]

/-- C10 witness: an absent header token on the concrete public document. -/
theorem httpDelete_public_guarded_witness :
    httpDelete exKV "p" none = .error .forbidden :=
  (httpDelete_public_guarded exKV "p" none exPubDoc rfl rfl
    (fun _ h => Option.noConfusion h)).1

/-! ## C3: raw-access-key rotation -/

/-- Full state characterisation of a successful `updateDocumentGo`: the
returned version metadata, the stored record, and the stored content. -/
theorem updateDocumentGo_state (st : Store) (kv : KV) (id content : String)
    (m : StoredDocumentMetadata) (eo tok : Option String) (e : Entropy)
    (kv1 : KV) (view : DocumentView) (vm : VersionMetadata)
    (h : updateDocumentGo st kv id content m eo tok e = .ok (kv1, view, vm)) :
    vm = { versionId := e.versionId, createdAt := e.now,
           size := content.utf8ByteSize, hash := st.hash content }
    ∧ kv1.docs id = some ({ m with
        updatedAt := e.now,
        size := content.utf8ByteSize, versions := vm :: m.versions,
        rawAccessKey :=
          if eo.isSome then some e.rawKey else m.rawAccessKey })
    ∧ kv1.contents id e.versionId = some content := by
  unfold updateDocumentGo at h
  cases eo with
  | none =>
    simp only [Option.isSome_none, Bool.not_false, Except.ok.injEq,
      Prod.ext_iff] at h
    obtain ⟨h1, h2, h3⟩ := h
    subst h1
    subst h3
    refine ⟨rfl, ?_, ?_⟩
    · simp [KV.updatePublicIndex, KV.putVersion, KV.putRecord, pushToIndex]
    · simp [KV.updatePublicIndex, KV.putVersion, KV.putRecord, pushToIndex]
  | some o =>
    simp only [Option.isSome_some, Bool.not_true, Except.ok.injEq,
      Prod.ext_iff] at h
    obtain ⟨h1, h2, h3⟩ := h
    subst h1
    subst h3
    refine ⟨rfl, ?_, ?_⟩
    · simp [KV.touchOwnerIndex, KV.updatePublicIndex, KV.putVersion,
        KV.putRecord, removeFromIndex]
    · simp [KV.touchOwnerIndex, KV.updatePublicIndex, KV.putVersion,
        KV.putRecord, removeFromIndex]

/-- C3: a successful `updateDocument` on an owned document (correct owner
token) stores the fresh raw-access key; afterwards a raw-content request
without the owner token presenting the previous key is refused `FORBIDDEN`,
while the same request presenting the new key is answered with the new
content. -/
theorem updateDocument_rotates_rawAccessKey (st : Store) (kv : KV)
    (id content t k0 : String) (e : Entropy) (m : StoredDocumentMetadata)
    (kv1 : KV) (view : DocumentView) (vm : VersionMetadata)
    (hm : kv.docs id = some m) (hown : m.ownerToken = some t)
    (htr : jsTrim t = t) (hne : t ≠ "") (hk : m.rawAccessKey = some k0)
    (hfresh : e.rawKey ≠ k0) (hkne : e.rawKey ≠ "")
    (h : updateDocument st kv id content (some t) e = .ok (kv1, view, vm)) :
    getRaw kv1 id none (some k0) none = .error .forbidden
    ∧ getRaw kv1 id none (some e.rawKey) none = .ok content := by
  have hcall : normalizeToken (some t) = some t :=
    normalizeToken_some_trimmed htr hne
  have hno : normalizeToken m.ownerToken = some t := by rw [hown]; exact hcall
  unfold updateDocument at h
  by_cases hs : content.utf8ByteSize > st.maxSize
  · rw [if_pos hs] at h
    exact Except.noConfusion h
  · rw [if_neg hs, hm] at h
    dsimp only at h
    rw [hno, hcall] at h
    simp only [Option.isSome_some, if_true, ne_eq, not_true_eq_false,
      if_false, ite_self, reduceIte] at h
    obtain ⟨hvm, hdocs, hcont⟩ :=
      updateDocumentGo_state st kv id content m (some t) (some t) e kv1 view
        vm h
    simp only [Option.isSome_some, if_true, reduceIte] at hdocs
    subst hvm
    have hview : getDocument kv1 id none
        = some (toView ({ m with
            updatedAt := e.now,
            size := content.utf8ByteSize,
            versions :=
              { versionId := e.versionId, createdAt := e.now,
                size := content.utf8ByteSize, hash := st.hash content }
                :: m.versions,
            rawAccessKey := some e.rawKey }) none) := by
      unfold getDocument
      rw [hdocs]
      rfl
    have hOwner : (toView ({ m with
        updatedAt := e.now,
        size := content.utf8ByteSize,
        versions :=
          { versionId := e.versionId, createdAt := e.now,
            size := content.utf8ByteSize, hash := st.hash content }
            :: m.versions,
        rawAccessKey := some e.rawKey }) none).isOwner = false := by
      simp [toView, jsTruthy, hown]
    have hPriv : (toView ({ m with
        updatedAt := e.now,
        size := content.utf8ByteSize,
        versions :=
          { versionId := e.versionId, createdAt := e.now,
            size := content.utf8ByteSize, hash := st.hash content }
            :: m.versions,
        rawAccessKey := some e.rawKey }) none).isPrivate = true := by
      simp [toView, jsTruthy, hown, hne]
    have hKey : (toView ({ m with
        updatedAt := e.now,
        size := content.utf8ByteSize,
        versions :=
          { versionId := e.versionId, createdAt := e.now,
            size := content.utf8ByteSize, hash := st.hash content }
            :: m.versions,
        rawAccessKey := some e.rawKey }) none).rawAccessKey
        = some e.rawKey := by
      simp [toView, jsTruthy, hown, hne]
    constructor
    · unfold getRaw
      rw [hview]
      dsimp only
      rw [hOwner, hPriv, hKey]
      by_cases hk0 : k0 = ""
      · subst hk0
        simp [jsTruthy]
      · have e1 : (k0 == "") = false := by simp [hk0]
        have e2 : (k0 == e.rawKey) = false := by simp [Ne.symm hfresh]
        simp [jsTruthy, e1, e2, Ne.symm hfresh]
    · unfold getRaw
      rw [hview]
      dsimp only
      rw [hOwner, hPriv, hKey]
      have e3 : (e.rawKey == "") = false := by simp [hkne]
      simp [rawLatest, rawFetch, getVersion, toView, jsTruthy, e3, hcont,
        hdocs, List.find?]

/-- C3 witness: after the concrete update of the owned document with fresh
key `k1`, the old key `k0` is refused. -/
theorem updateDocument_rotates_rawAccessKey_witness :
    getRaw wUpdRes.1 "d" none (some "k0") none = .error .forbidden :=
  (updateDocument_rotates_rawAccessKey exStore exKV "d" "bye" "tok" "k0" exE
    exOwnedDoc wUpdRes.1 wUpdRes.2.1 wUpdRes.2.2 rfl rfl (by decide)
    (by decide) rfl (by decide) (by decide) rfl).1

/-! ## C7: cursor pagination -/

/-- C7: the page starts right after the cursor position (position 0 when the
cursor is absent or not found); when more entries follow the page is full
and `nextCursor` is its last id, otherwise `nextCursor` is absent; and the
concrete five-id example paginates as claimed. -/
theorem sliceIndex_pagination (index : List String) (limit : Nat)
    (cursor : Option String) (hl : 1 ≤ limit) :
    (sliceIndex index limit cursor).1
        = (index.drop (sliceStart index cursor)).take limit
    ∧ (cursor = none → sliceStart index cursor = 0)
    ∧ (∀ c, cursor = some c → index.findIdx? (fun x => x == c) = none →
        sliceStart index cursor = 0)
    ∧ (∀ c i, cursor = some c → index.findIdx? (fun x => x == c) = some i →
        sliceStart index cursor = i + 1)
    ∧ (sliceStart index cursor + limit < index.length →
        (sliceIndex index limit cursor).2
            = (sliceIndex index limit cursor).1.getLast?
        ∧ (sliceIndex index limit cursor).1.length = limit)
    ∧ (index.length ≤ sliceStart index cursor + limit →
        (sliceIndex index limit cursor).2 = none)
    ∧ sliceIndex ["d5", "d4", "d3", "d2", "d1"] 2 none
        = (["d5", "d4"], some "d4")
    ∧ sliceIndex ["d5", "d4", "d3", "d2", "d1"] 2 (some "d4")
        = (["d3", "d2"], some "d2")
    ∧ sliceIndex ["d5", "d4", "d3", "d2", "d1"] 2 (some "d2")
        = (["d1"], none) := by
  refine ⟨rfl, ?_, ?_, ?_, ?_, ?_, by decide, by decide, by decide⟩
  · intro hc
    simp [sliceStart, hc]
  · intro c hc hf
    simp [sliceStart, hc, hf]
  · intro c i hc hf
    simp [sliceStart, hc, hf]
  · intro hlt
    have h01 : 0 < sliceStart index cursor + limit := by omega
    have hs2 : (sliceIndex index limit cursor).2
        = index.get? (sliceStart index cursor + limit - 1) := by
      unfold sliceIndex
      simp only [if_pos hlt, if_pos h01]
    have hlen : ((index.drop (sliceStart index cursor)).take limit).length
        = limit := by
      simp only [List.length_take, List.length_drop]
      omega
    have hlast :
        ((index.drop (sliceStart index cursor)).take limit).getLast?
          = index.get? (sliceStart index cursor + limit - 1) := by
      rw [List.getLast?_eq_getElem?, hlen, List.getElem?_take_of_lt
        (by omega : limit - 1 < limit), List.getElem?_drop,
        List.get?_eq_getElem?]
      congr 1
      omega
    constructor
    · rw [hs2]
      have hfst : (sliceIndex index limit cursor).1
          = (index.drop (sliceStart index cursor)).take limit := rfl
      rw [hfst, hlast]
    · exact hlen
  · intro hge
    unfold sliceIndex
    simp only [if_neg (by omega : ¬ sliceStart index cursor + limit
      < index.length)]

/-- C7 witness: the first page of the five-id example. -/
theorem sliceIndex_pagination_witness :
    sliceIndex ["d5", "d4", "d3", "d2", "d1"] 2 none
      = (["d5", "d4"], some "d4") :=
  (sliceIndex_pagination ["d5", "d4", "d3", "d2", "d1"] 2 none
    (by decide)).2.2.2.2.2.2.1

/-! ## C8: the share-token codec -/

/-- A bitwise OR of naturals is zero only when both sides are. -/
theorem natOr_eq_zero {a b : Nat} (h : a ||| b = 0) : a = 0 ∧ b = 0 := by
  constructor
  · apply Nat.eq_of_testBit_eq
    intro i
    have ht := congrArg (fun x => Nat.testBit x i) h
    simp only [Nat.testBit_or, Nat.zero_testBit, Bool.or_eq_false_iff] at ht
    simp [ht.1]
  · apply Nat.eq_of_testBit_eq
    intro i
    have ht := congrArg (fun x => Nat.testBit x i) h
    simp only [Nat.testBit_or, Nat.zero_testBit, Bool.or_eq_false_iff] at ht
    simp [ht.2]

/-- Characters with equal code points are equal. -/
theorem charToNat_inj {a b : Char} (h : a.toNat = b.toNat) : a = b :=
  Char.ext (UInt32.ext h)

/-- Decoding a base64 digit recovers its sextet. -/
theorem b64Index_b64Char : ∀ n, n < 64 → b64Index (b64Char n) = some n := by
  decide

/-- Base64 digits are never the padding character. -/
theorem b64Char_ne_pad : ∀ n, n < 64 → b64Char n ≠ '=' := by decide

/-- Base64 decoding inverts base64 encoding on byte sequences. -/
theorem b64_decode_encode : ∀ bs : List Nat, (∀ b ∈ bs, b < 256) →
    b64DecodeChars (b64EncodeBytes bs) = some bs := by
  intro bs
  induction bs using b64EncodeBytes.induct with
  | case1 =>
    intro _
    rfl
  | case2 b1 =>
    intro h
    have hb1 : b1 < 256 := h b1 (by simp)
    simp only [b64EncodeBytes, b64DecodeChars]
    rw [if_pos (by simp)]
    rw [b64Index_b64Char _ (by omega), b64Index_b64Char _ (by omega)]
    dsimp only
    simp only [Option.some.injEq, List.cons.injEq, and_true]
    omega
  | case3 b1 b2 =>
    intro h
    have hb1 : b1 < 256 := h b1 (by simp)
    have hb2 : b2 < 256 := h b2 (by simp)
    simp only [b64EncodeBytes, b64DecodeChars]
    rw [if_neg (by
      intro hcon
      exact b64Char_ne_pad _ (by omega) hcon.2.1)]
    rw [if_pos (by simp)]
    rw [b64Index_b64Char _ (by omega), b64Index_b64Char _ (by omega),
      b64Index_b64Char _ (by omega)]
    dsimp only
    simp only [Option.some.injEq, List.cons.injEq, and_true]
    omega
  | case4 b1 b2 b3 rest ih =>
    intro h
    have hb1 : b1 < 256 := h b1 (by simp)
    have hb2 : b2 < 256 := h b2 (by simp)
    have hb3 : b3 < 256 := h b3 (by simp)
    have hrest : ∀ b ∈ rest, b < 256 := fun b hb => h b (by simp [hb])
    simp only [b64EncodeBytes, b64DecodeChars]
    rw [if_neg (by
      intro hcon
      exact b64Char_ne_pad _ (by omega) hcon.2.1)]
    rw [if_neg (by
      intro hcon
      exact b64Char_ne_pad _ (by omega) hcon.2)]
    rw [b64Index_b64Char _ (by omega), b64Index_b64Char _ (by omega),
      b64Index_b64Char _ (by omega), b64Index_b64Char _ (by omega),
      ih hrest]
    dsimp only
    simp only [Option.some.injEq, List.cons.injEq]
    refine ⟨by omega, by omega, by omega, trivial⟩

/-- `atob` inverts `btoa` whenever `btoa` succeeds. -/
theorem atobM_btoaM {s t : String} (h : btoaM s = some t) :
    atobM t = some s := by
  unfold btoaM at h
  by_cases hall : s.data.all (fun c => c.toNat < 256)
  · rw [if_pos hall] at h
    injection h with h
    subst h
    unfold atobM
    have hbound : ∀ b ∈ s.data.map Char.toNat, b < 256 := by
      intro b hb
      simp only [List.mem_map] at hb
      obtain ⟨c, hc, rfl⟩ := hb
      have := List.all_eq_true.mp hall c hc
      exact of_decide_eq_true this
    show (b64DecodeChars (b64EncodeBytes (s.data.map Char.toNat))).map
        (fun bs => String.mk (bs.map Char.ofNat)) = some s
    rw [b64_decode_encode _ hbound]
    simp only [Option.map_some', Option.some.injEq]
    rw [List.map_map]
    have hmap : s.data.map (fun c => Char.ofNat c.toNat) = s.data := by
      simp [Char.ofNat_toNat]
    rw [show (Char.ofNat ∘ Char.toNat) = fun c => Char.ofNat c.toNat from
      rfl, hmap]
  · rw [if_neg hall] at h
    exact Option.noConfusion h

/-- The OR-of-XORs fold is zero exactly when the accumulator is zero and all
pairs agree. -/
theorem tseFold_zero : ∀ (l : List (Char × Char)) (acc : Nat),
    (l.foldl (fun r p => r ||| (p.1.toNat ^^^ p.2.toNat)) acc = 0)
      ↔ (acc = 0 ∧ ∀ p ∈ l, p.1 = p.2) := by
  intro l
  induction l with
  | nil =>
    intro acc
    simp
  | cons x xs ih =>
    intro acc
    simp only [List.foldl_cons, ih, List.forall_mem_cons]
    constructor
    · rintro ⟨h1, h2⟩
      obtain ⟨ha, hx⟩ := natOr_eq_zero h1
      exact ⟨ha, charToNat_inj (Nat.xor_eq_zero.mp hx), h2⟩
    · rintro ⟨ha, hx, hall⟩
      subst ha
      refine ⟨?_, hall⟩
      simp [hx, Nat.xor_self]

/-- Pointwise equality along a `zip` of equal-length lists is equality. -/
theorem zip_pointwise_eq : ∀ (l1 l2 : List Char), l1.length = l2.length →
    ((∀ p ∈ l1.zip l2, p.1 = p.2) ↔ l1 = l2) := by
  intro l1
  induction l1 with
  | nil =>
    intro l2 hlen
    cases l2 with
    | nil => simp
    | cons y ys => simp at hlen
  | cons x xs ih =>
    intro l2 hlen
    cases l2 with
    | nil => simp at hlen
    | cons y ys =>
      simp only [List.length_cons, Nat.succ.injEq] at hlen
      constructor
      · intro hall
        have hx : x = y := hall (x, y) (by simp [List.zip_cons_cons])
        have ht : ∀ p ∈ xs.zip ys, p.1 = p.2 := fun p hp =>
          hall p (by simp [List.zip_cons_cons, hp])
        rw [hx, (ih ys hlen).mp ht]
      · intro heq
        injection heq with h1 h2
        subst h1
        subst h2
        intro p hp
        simp only [List.zip_cons_cons, List.mem_cons] at hp
        rcases hp with hp | hp
        · simp [hp]
        · exact (ih xs rfl).mpr rfl p hp

/-- `timingSafeEqual` decides string equality. -/
theorem timingSafeEqual_iff (a b : String) :
    timingSafeEqual a b = true ↔ a = b := by
  unfold timingSafeEqual
  by_cases hlen : a.length ≠ b.length
  · rw [if_pos hlen]
    simp only [Bool.false_eq_true, false_iff]
    intro hab
    exact hlen (by rw [hab])
  · rw [if_neg hlen]
    push_neg at hlen
    simp only [beq_iff_eq, tseFold_zero, true_and]
    rw [zip_pointwise_eq a.data b.data hlen]
    exact ⟨String.ext, fun hab => by rw [hab]⟩

/-- Valid code points below the surrogate range round-trip through
`Char.ofNat`. -/
theorem charToNat_ofNat_small {k : Nat} (h : k < 55296) :
    (Char.ofNat k).toNat = k := by
  have hv : Nat.isValidChar k := Or.inl h
  rw [Char.ofNat, dif_pos hv]
  simp [Char.toNat, Char.ofNatAux]
  rfl

/-- The digit characters produced by the decimal rendering. -/
theorem charOfNat_digit (r : Nat) (h : r < 10) :
    (Char.ofNat (48 + r)).isDigit = true := by
  interval_cases r <;> decide

/-- One step of `natToCharsGo` on a positive number. -/
theorem natToCharsGo_succ (k : Nat) (acc : List Char) :
    natToCharsGo (k + 1) acc
      = natToCharsGo ((k + 1) / 10)
          (Char.ofNat (48 + (k + 1) % 10) :: acc) := by
  simp only [natToCharsGo]

/-- `natToCharsGo` stops at zero. -/
theorem natToCharsGo_zero (acc : List Char) : natToCharsGo 0 acc = acc := by
  simp only [natToCharsGo]

/-- `natToCharsGo` emits the accumulator as a suffix. -/
theorem natToCharsGo_append : ∀ n acc,
    natToCharsGo n acc = natToCharsGo n [] ++ acc := by
  intro n
  induction n using Nat.strong_induction_on with
  | _ n ih =>
    intro acc
    cases n with
    | zero => simp [natToCharsGo_zero]
    | succ k =>
      have hlt : (k + 1) / 10 < k + 1 :=
        Nat.div_lt_self (Nat.succ_pos k) (by norm_num)
      rw [natToCharsGo_succ, natToCharsGo_succ,
        ih _ hlt (Char.ofNat (48 + (k + 1) % 10) :: acc),
        ih _ hlt [Char.ofNat (48 + (k + 1) % 10)]]
      simp

/-- The decimal rendering evaluates back to its number and consists of
digits. -/
theorem digitsVal_natToCharsGo : ∀ n,
    digitsVal (natToCharsGo n []) = n
    ∧ (∀ c ∈ natToCharsGo n [], c.isDigit = true) := by
  intro n
  induction n using Nat.strong_induction_on with
  | _ n ih =>
    cases n with
    | zero =>
      refine ⟨by rw [natToCharsGo_zero]; rfl, ?_⟩
      intro c hc
      rw [natToCharsGo_zero] at hc
      simp at hc
    | succ k =>
      have hlt : (k + 1) / 10 < k + 1 :=
        Nat.div_lt_self (Nat.succ_pos k) (by norm_num)
      obtain ⟨ihv, ihd⟩ := ih _ hlt
      constructor
      · rw [natToCharsGo_succ, natToCharsGo_append]
        unfold digitsVal
        rw [List.foldl_append]
        simp only [List.foldl_cons, List.foldl_nil]
        have hval : (Char.ofNat (48 + (k + 1) % 10)).toNat
            = 48 + (k + 1) % 10 :=
          charToNat_ofNat_small (by omega)
        rw [hval]
        unfold digitsVal at ihv
        rw [ihv]
        omega
      · rw [natToCharsGo_succ, natToCharsGo_append]
        intro c hc
        rcases List.mem_append.mp hc with hc | hc
        · exact ihd c hc
        · simp only [List.mem_singleton] at hc
          subst hc
          exact charOfNat_digit _ (by omega)

/-- `digitsVal` inverts `natToChars`. -/
theorem digitsVal_natToChars (n : Nat) : digitsVal (natToChars n) = n := by
  by_cases h0 : n = 0
  · subst h0
    decide
  · unfold natToChars
    rw [if_neg h0]
    exact (digitsVal_natToCharsGo n).1

/-- Every character of `natToChars` is a digit. -/
theorem natToChars_digits (n : Nat) :
    ∀ c ∈ natToChars n, c.isDigit = true := by
  by_cases h0 : n = 0
  · subst h0
    intro c hc
    rw [show natToChars 0 = ['0'] from rfl] at hc
    simp only [List.mem_singleton] at hc
    subst hc
    decide
  · unfold natToChars
    rw [if_neg h0]
    exact (digitsVal_natToCharsGo n).2

/-- The decimal rendering is never empty. -/
theorem natToChars_ne_nil (n : Nat) : natToChars n ≠ [] := by
  by_cases h0 : n = 0
  · subst h0
    decide
  · unfold natToChars
    rw [if_neg h0]
    cases n with
    | zero => exact absurd rfl h0
    | succ k =>
      rw [natToCharsGo_succ, natToCharsGo_append]
      simp

/-- `dropExact` consumes an exact leading copy. -/
theorem dropExact_append : ∀ (ps rest : List Char),
    dropExact ps (ps ++ rest) = some rest := by
  intro ps
  induction ps with
  | nil => intro rest; rfl
  | cons p ps ih =>
    intro rest
    simp [dropExact, ih]

/-- `spanToQuote` splits at the first quote. -/
theorem spanToQuote_append : ∀ (idc rest : List Char),
    (∀ c ∈ idc, c ≠ '"') →
    spanToQuote (idc ++ '"' :: rest) = some (idc, rest) := by
  intro idc
  induction idc with
  | nil =>
    intro rest h
    simp [spanToQuote]
  | cons c cs ih =>
    intro rest h
    have hc : c ≠ '"' := h c (by simp)
    simp [spanToQuote, hc, ih rest (fun x hx => h x (by simp [hx]))]

/-- `takeWhile`/`dropWhile` on an all-true block followed by a stopper. -/
theorem takeWhile_all_append (p : Char → Bool) :
    ∀ (xs : List Char) (y : Char) (ys : List Char),
      (∀ c ∈ xs, p c = true) → p y = false →
      (xs ++ y :: ys).takeWhile p = xs
      ∧ (xs ++ y :: ys).dropWhile p = y :: ys := by
  intro xs
  induction xs with
  | nil =>
    intro y ys hall hy
    simp [List.takeWhile_cons, List.dropWhile_cons, hy]
  | cons x xs ih =>
    intro y ys hall hy
    have hx : p x = true := hall x (by simp)
    have hrec := ih y ys (fun c hc => hall c (by simp [hc])) hy
    simp [List.takeWhile_cons, List.dropWhile_cons, hx, hrec.1, hrec.2]

/-- Parsing inverts serialisation for payloads whose document id contains no
double quote. -/
theorem parsePayload_encodePayload (p : ShareTokenPayload)
    (hq : ∀ c ∈ p.documentId.data, c ≠ '"') :
    parsePayload (encodePayload p) = some p := by
  have h0 : (encodePayload p).toList
      = "\x7b\"documentId\":\"".toList
        ++ (p.documentId.data
          ++ ('"' :: (",\"expiresAt\":".toList
            ++ (natToChars p.expiresAt ++ ['\x7d'])))) := by
    show ((("\x7b\"documentId\":\"".toList ++ p.documentId.data)
        ++ "\",\"expiresAt\":".toList) ++ natToChars p.expiresAt)
        ++ "\x7d".toList = _
    rw [show ("\",\"expiresAt\":" : String).toList
        = '"' :: (",\"expiresAt\":" : String).toList from rfl,
      show ("\x7d" : String).toList = ['\x7d'] from rfl]
    simp [List.append_assoc]
  unfold parsePayload
  rw [h0, dropExact_append]
  dsimp only
  rw [spanToQuote_append _ _ hq]
  dsimp only
  rw [dropExact_append]
  dsimp only
  have hdig := takeWhile_all_append Char.isDigit
    (natToChars p.expiresAt) '\x7d' [] (natToChars_digits p.expiresAt)
    (by decide)
  rw [hdig.1, hdig.2]
  rw [if_neg (natToChars_ne_nil p.expiresAt), if_pos rfl]
  rw [digitsVal_natToChars]

/-- Digit characters have code points between 48 and 57. -/
theorem digit_toNat_bounds {c : Char} (h : c.isDigit = true) :
    48 ≤ c.toNat ∧ c.toNat ≤ 57 := by
  simp only [Char.isDigit, Bool.and_eq_true, decide_eq_true_eq] at h
  obtain ⟨h1, h2⟩ := h
  exact ⟨h1, h2⟩

/-- `splitOnCharAux` on separator-free input yields a single field. -/
theorem splitOnCharAux_no_sep (sep : Char) :
    ∀ (cs acc : List Char), (∀ c ∈ cs, c ≠ sep) →
      splitOnCharAux sep cs acc = [acc.reverse ++ cs] := by
  intro cs
  induction cs with
  | nil =>
    intro acc h
    simp [splitOnCharAux]
  | cons c cs ih =>
    intro acc h
    have hc : c ≠ sep := h c (by simp)
    simp [splitOnCharAux, hc,
      ih (c :: acc) (fun x hx => h x (by simp [hx]))]

/-- `splitOnCharAux` splits at the first separator. -/
theorem splitOnCharAux_split (sep : Char) :
    ∀ (xs ys acc : List Char), (∀ c ∈ xs, c ≠ sep) →
      splitOnCharAux sep (xs ++ sep :: ys) acc
        = (acc.reverse ++ xs) :: splitOnCharAux sep ys [] := by
  intro xs
  induction xs with
  | nil =>
    intro ys acc h
    simp [splitOnCharAux]
  | cons x xs ih =>
    intro ys acc h
    have hx : x ≠ sep := h x (by simp)
    simp [splitOnCharAux, hx,
      ih ys (x :: acc) (fun c hc => h c (by simp [hc]))]

/-- The character list of `a ++ "." ++ b`. -/
theorem append_dot_data (a b : String) :
    (a ++ "." ++ b).data = a.data ++ '.' :: b.data := by
  show (a.data ++ ("." : String).data) ++ b.data = _
  rw [show ("." : String).data = ['.'] from rfl]
  simp [List.append_assoc]

/-- The dot-split of `data ++ "." ++ sig` for dot-free parts. -/
theorem splitParts_two (data sig : String)
    (hd : ∀ c ∈ data.data, c ≠ '.') (hs : ∀ c ∈ sig.data, c ≠ '.') :
    splitParts (data ++ "." ++ sig) = [data, sig] := by
  unfold splitParts
  rw [show (data ++ "." ++ sig).data = data.data ++ '.' :: sig.data from
    append_dot_data data sig,
    splitOnCharAux_split '.' data.data sig.data [] hd,
    splitOnCharAux_no_sep '.' sig.data [] hs]
  simp

/-- The canonical character list of a serialised payload. -/
theorem encodePayload_toList (p : ShareTokenPayload) :
    (encodePayload p).toList
      = "\x7b\"documentId\":\"".toList
        ++ (p.documentId.data
          ++ ('"' :: (",\"expiresAt\":".toList
            ++ (natToChars p.expiresAt ++ ['\x7d'])))) := by
  show ((("\x7b\"documentId\":\"".toList ++ p.documentId.data)
      ++ "\",\"expiresAt\":".toList) ++ natToChars p.expiresAt)
      ++ "\x7d".toList = _
  rw [show ("\",\"expiresAt\":" : String).toList
      = '"' :: (",\"expiresAt\":" : String).toList from rfl,
    show ("\x7d" : String).toList = ['\x7d'] from rfl]
  simp [List.append_assoc]

/-- A serialised payload is never the empty string. -/
theorem encodePayload_ne_empty (p : ShareTokenPayload) :
    encodePayload p ≠ "" := by
  intro he
  have hl := congrArg String.toList he
  rw [encodePayload_toList,
    show ("" : String).toList = [] from rfl,
    show ("\x7b\"documentId\":\"" : String).toList
      = '\x7b' :: ("\"documentId\":\"" : String).toList from rfl] at hl
  simp at hl

/-- Characters of a serialised payload with a well-behaved document id:
no dots, all latin-1. -/
theorem encodePayload_chars (p : ShareTokenPayload)
    (hid : goodId p.documentId) :
    ∀ c ∈ (encodePayload p).toList, c ≠ '.' ∧ c.toNat < 256 := by
  intro c hc
  rw [encodePayload_toList] at hc
  have hpre : ∀ x ∈ ("\x7b\"documentId\":\"" : String).toList,
      x ≠ '.' ∧ x.toNat < 256 := by decide
  have hmid : ∀ x ∈ (",\"expiresAt\":" : String).toList,
      x ≠ '.' ∧ x.toNat < 256 := by decide
  rcases List.mem_append.mp hc with hc | hc
  · exact hpre c hc
  rcases List.mem_append.mp hc with hc | hc
  · have hg := hid c hc
    exact ⟨hg.2.2.2.2, hg.2.1⟩
  rcases List.mem_cons.mp hc with hc | hc
  · subst hc
    exact ⟨by decide, by decide⟩
  rcases List.mem_append.mp hc with hc | hc
  · exact hmid c hc
  rcases List.mem_append.mp hc with hc | hc
  · have hb := digit_toNat_bounds (natToChars_digits _ c hc)
    constructor
    · intro heq
      rw [heq] at hb
      revert hb
      decide
    · omega
  · simp only [List.mem_singleton] at hc
    subst hc
    exact ⟨by decide, by decide⟩

/-- C8 (amended): for payloads whose document id is printable latin-1 with
no quote, backslash or dot (every nanoid id qualifies) and a hex-like
signer, `createShareToken` succeeds, and verifying the created token
returns the payload when `expiresAt` is not in the past and absent when it
is; moreover verification returns absent for every token that fails base64
decoding or whose embedded signature differs from the recomputed one, and
every accepted token is unexpired. -/
theorem shareToken_lifecycle (sign : String → String → String)
    (secret : String) (p : ShareTokenPayload) (now : Nat)
    (hid : goodId p.documentId) (hsig : ∀ d s, goodSig (sign d s)) :
    (∀ tk, createShareToken sign p secret = some tk →
      (now ≤ p.expiresAt → verifyShareToken sign now tk secret = some p)
      ∧ (p.expiresAt < now → verifyShareToken sign now tk secret = none))
    ∧ (createShareToken sign p secret).isSome = true
    ∧ (∀ token, atobM token = none →
        verifyShareToken sign now token secret = none)
    ∧ (∀ token decoded, atobM token = some decoded →
        ¬ timingSafeEqual ((splitParts decoded).getD 1 "")
            (sign ((splitParts decoded).getD 0 "") secret) = true →
        verifyShareToken sign now token secret = none)
    ∧ (∀ token q, verifyShareToken sign now token secret = some q →
        now ≤ q.expiresAt) := by
  have hd : ∀ c ∈ (encodePayload p).data, c ≠ '.' :=
    fun c hc => (encodePayload_chars p hid c hc).1
  have hs : ∀ c ∈ (sign (encodePayload p) secret).data, c ≠ '.' :=
    fun c hc => ((hsig (encodePayload p) secret).2 c hc).2
  have hq : ∀ c ∈ p.documentId.data, c ≠ '"' :=
    fun c hc => (hid c hc).2.2.1
  have hall : ((encodePayload p ++ "." ++ sign (encodePayload p) secret).data.all
      (fun c => c.toNat < 256)) = true := by
    rw [List.all_eq_true]
    intro c hc
    rw [append_dot_data] at hc
    rcases List.mem_append.mp hc with hc | hc
    · exact decide_eq_true (encodePayload_chars p hid c hc).2
    rcases List.mem_cons.mp hc with hc | hc
    · subst hc
      decide
    · exact decide_eq_true ((hsig (encodePayload p) secret).2 c hc).1
  have hcreate : createShareToken sign p secret
      = some (String.mk (b64EncodeBytes
          ((encodePayload p ++ "." ++ sign (encodePayload p) secret).data.map
            Char.toNat))) := by
    unfold createShareToken btoaM
    rw [if_pos hall]
  refine ⟨?_, ?_, ?_, ?_, ?_⟩
  · intro tk htk
    unfold createShareToken at htk
    have hatob : atobM tk
        = some (encodePayload p ++ "." ++ sign (encodePayload p) secret) :=
      atobM_btoaM htk
    have hverify : verifyShareToken sign now tk secret
        = (if p.expiresAt < now then none else some p) := by
      unfold verifyShareToken
      rw [hatob]
      dsimp only
      rw [splitParts_two _ _ hd hs]
      simp only [List.getD_cons_zero, List.getD_cons_succ]
      rw [if_neg (encodePayload_ne_empty p),
        if_neg (hsig (encodePayload p) secret).1]
      have htse : timingSafeEqual (sign (encodePayload p) secret)
          (sign (encodePayload p) secret) = true :=
        (timingSafeEqual_iff _ _).mpr rfl
      rw [if_neg (by simp [htse])]
      rw [parsePayload_encodePayload p hq]
    constructor
    · intro hnow
      rw [hverify, if_neg (by omega)]
    · intro hlt
      rw [hverify, if_pos hlt]
  · rw [hcreate]
    rfl
  · intro token hnone
    unfold verifyShareToken
    rw [hnone]
  · intro token decoded hatob htse
    unfold verifyShareToken
    rw [hatob]
    dsimp only
    by_cases h1 : (splitParts decoded).getD 0 "" = ""
    · rw [if_pos h1]
    · rw [if_neg h1]
      by_cases h2 : (splitParts decoded).getD 1 "" = ""
      · rw [if_pos h2]
      · rw [if_neg h2]
        have hfalse : timingSafeEqual ((splitParts decoded).getD 1 "")
            (sign ((splitParts decoded).getD 0 "") secret) = false :=
          Bool.eq_false_iff.mpr htse
        rw [hfalse]
        simp
  · intro token q hv
    unfold verifyShareToken at hv
    cases hatob : atobM token with
    | none =>
      rw [hatob] at hv
      exact Option.noConfusion hv
    | some decoded =>
      rw [hatob] at hv
      dsimp only at hv
      by_cases h1 : (splitParts decoded).getD 0 "" = ""
      · rw [if_pos h1] at hv
        exact Option.noConfusion hv
      · rw [if_neg h1] at hv
        by_cases h2 : (splitParts decoded).getD 1 "" = ""
        · rw [if_pos h2] at hv
          exact Option.noConfusion hv
        · rw [if_neg h2] at hv
          cases htse : timingSafeEqual ((splitParts decoded).getD 1 "")
              (sign ((splitParts decoded).getD 0 "") secret) with
          | false =>
            rw [htse] at hv
            simp at hv
          | true =>
            rw [htse] at hv
            simp only [Bool.not_true] at hv
            rw [if_neg (by simp)] at hv
            cases hp : parsePayload ((splitParts decoded).getD 0 "") with
            | none =>
              rw [hp] at hv
              exact Option.noConfusion hv
            | some payload =>
              rw [hp] at hv
              dsimp only at hv
              by_cases hexp : payload.expiresAt < now
              · rw [if_pos hexp] at hv
                exact Option.noConfusion hv
              · rw [if_neg hexp] at hv
                injection hv with hv
                subst hv
                omega

/-- C8 counterexample: a document id containing a dot breaks the round
trip: the created token is valid base64 with a correct signature and an
unexpired payload, yet `verifyShareToken` returns absent, because the
decoded string is split at its first dot, which falls inside the JSON
payload. -/
theorem shareToken_dotted_id_fails :
    createShareToken exSign { documentId := "a.b", expiresAt := 0 } "sec"
      = some "eyJkb2N1bWVudElkIjoiYS5iIiwiZXhwaXJlc0F0IjowfS5zaWc="
    ∧ verifyShareToken exSign 0
        "eyJkb2N1bWVudElkIjoiYS5iIiwiZXhwaXJlc0F0IjowfS5zaWc=" "sec"
      = none := by
  constructor
  · rfl
  · rfl

/-- C8 witness: a dot-free document id round-trips. -/
theorem shareToken_lifecycle_witness :
    (createShareToken exSign { documentId := "ab", expiresAt := 7 }
      "s").isSome = true :=
  (shareToken_lifecycle exSign "s" { documentId := "ab", expiresAt := 7 } 0
    (by unfold goodId; decide)
    (fun d s => by unfold goodSig exSign; exact ⟨by decide, by decide⟩)).2.1
